import Mathlib

/-!
Verification of the dairy-management application (DMS.py and
ganesh_dairy_pro_v_5_5.py) against its natural-language specification.

The Python code is shallowly embedded: the SQLite tables become Lean lists
of rows, Python floats become rationals with Python's banker's rounding made
explicit, exceptions become `Option`/pair-with-`Bool` results, and the GUI
callbacks become pure functions of the state they read and write.
-/

/-- Python's `round` on a rational: round half to even (banker's rounding),
as CPython's `round(x)` does on numbers. -/
def pyRound (q : ℚ) : ℤ :=
  let f := ⌊q⌋
  if q - f < 1/2 then f
  else if 1/2 < q - f then f + 1
  else if 2 ∣ f then f else f + 1

/-- Python's `round(x, 2)`: round to two decimal places, half to even. -/
def round2 (q : ℚ) : ℚ := (pyRound (q * 100) : ℚ) / 100

/-- Python's `round(x, 1)` style rounding used for fat slabs:
`round(fat * 10) / 10.0`. -/
def roundFat (q : ℚ) : ℚ := (pyRound (q * 10) : ℚ) / 10

/-- A point in time, reduced to the fields the shift functions inspect
(`dt.hour`) plus one more field witnessing that nothing else matters. -/
structure Timestamp where
  hour : ℕ
  minute : ℕ

/-- `get_shift_for_time` from DMS.py (lines 144-153): Morning for hours
6..15, Evening otherwise. -/
def get_shift_for_time (dt : Timestamp) : String :=
  if 6 ≤ dt.hour ∧ dt.hour < 16 then "Morning" else "Evening"

/-- `get_shift_for_time` from ganesh_dairy_pro_v_5_5.py (lines 47-55):
Morning for hours 4..11, Evening for 12..22, Morning otherwise. -/
def ganesh_get_shift_for_time (dt : Timestamp) : String :=
  if 4 ≤ dt.hour ∧ dt.hour ≤ 11 then "Morning"
  else if 12 ≤ dt.hour ∧ dt.hour ≤ 22 then "Evening"
  else "Morning"

/-- A row of the `rate_table` SQLite table: price per litre indexed by
category, fat and SNF. -/
structure RateRow where
  category : String
  fat : ℚ
  snf : ℚ
  rate : ℚ

/-- `SELECT ... ORDER BY key LIMIT 1`: the first row of the list attaining
the minimal key (ties go to the earlier row). -/
def minByKey (key : RateRow → ℚ) : List RateRow → Option RateRow
  | [] => none
  | r :: rs => some (rs.foldl (fun best x => if key x < key best then x else best) r)

/-- `category.lower().startswith('buf')` from find_rate_for. -/
def startsWithBuf (s : String) : Bool :=
  match s.data with
  | b :: u :: f :: _ => b.toLower = 'b' && u.toLower = 'u' && f.toLower = 'f'
  | _ => false

/-- `find_rate_for` from DMS.py (lines 350-401).  The rate table is passed
explicitly in place of the SQLite connection.  `fat` and `snf` arrive as
numbers, so the `float(fat)` conversion cannot fail.
ganesh_dairy_pro_v_5_5.py (lines 211-228) is the same function without the
empty-category default. -/
def find_rate_for (table : List RateRow) (category : String) (fat snf : ℚ) : ℚ :=
  let cat := if category = "" then "Cow" else category
  let fat_r := roundFat fat
  match minByKey (fun r => |r.snf - snf|)
      (table.filter (fun r => r.category = cat ∧ r.fat = fat_r)) with
  | some r => round2 r.rate
  | none =>
    match minByKey (fun r => |r.fat - fat_r|)
        (table.filter (fun r => r.category = cat)) with
    | some r => round2 r.rate
    | none =>
      let bf : ℚ × ℚ := if startsWithBuf cat then (5, 45) else (3, 30)
      round2 (max 0 (bf.2 + (fat - bf.1) * 5))

/-- The loop of `get_next_farmer_code` (DMS.py lines 335-346, identical in
ganesh_dairy_pro_v_5_5.py lines 196-207): walk the sorted codes, bumping the
candidate on an exact hit and stopping at the first gap. -/
def nextCodeLoop : List ℤ → ℤ → ℤ
  | [], n => n
  | c :: rest, n =>
    if c = n then nextCodeLoop rest (n + 1)
    else if n < c then n
    else nextCodeLoop rest n

/-- `get_next_farmer_code`: the codes list is the result of
`SELECT farmer_code FROM farmers ORDER BY farmer_code`. -/
def get_next_farmer_code (codes : List ℤ) : ℤ := nextCodeLoop codes 1

/-- A row of the `advances` table. -/
structure Advance where
  farmer_code : ℤ
  date : String
  reason : String
  amount : ℚ

/-- A row of the `advance_deductions` table. -/
structure Deduction where
  farmer_code : ℤ
  date : String
  month : String
  amount : ℚ
  note : String

/-- `get_advance_balance` from DMS.py (lines 79-112): total advances for the
farmer (all of them), minus deductions for the farmer with `month < up_to_month`
(or all deductions when no month is given), rounded to two decimals. -/
def get_advance_balance (advances : List Advance) (deductions : List Deduction)
    (farmer_code : ℤ) (up_to_month : Option String) : ℚ :=
  let total_adv :=
    ((advances.filter (fun a => a.farmer_code = farmer_code)).map Advance.amount).sum
  let total_ded :=
    match up_to_month with
    | some m =>
      ((deductions.filter
        (fun d => d.farmer_code = farmer_code ∧ d.month < m)).map Deduction.amount).sum
    | none =>
      ((deductions.filter (fun d => d.farmer_code = farmer_code)).map Deduction.amount).sum
  round2 (total_adv - total_ded)

/-- `record_advance_deduction` from DMS.py (lines 115-141): insert one row.
The model has no database errors, so the `False` branch does not occur. -/
def record_advance_deduction (deductions : List Deduction) (farmer_code : ℤ)
    (today month : String) (amount : ℚ) (note : String) : List Deduction :=
  deductions ++ [⟨farmer_code, today, month, amount, note⟩]

/-- A row of the `milk_records` table. -/
structure MilkRecord where
  farmer_code : ℤ
  date : String
  shift : String
  litres : ℚ
  fat : ℚ
  snf : ℚ
  rate : ℚ
  amount : ℚ
  category : String

/-- `strftime('%Y-%m', date)` as applied to the normalized `YYYY-MM-DD`
date strings the application stores: the first seven characters. -/
def monthOf (d : String) : String := d.take 7

/-- `generate_and_save` from the Generate Monthly Bill popup (DMS.py lines
1309-1396).  `confirm_excess` is the user's answer to the
"Deduction exceeds earnings. Continue?" dialog; `today` is
`date.today()`.  Returns the new `advance_deductions` table and the bill's
net payable (`none` when the popup rejects the input and saves nothing). -/
def generate_and_save (milk : List MilkRecord) (advances : List Advance)
    (deductions : List Deduction) (code : ℤ) (month : String) (ded_amt : ℚ)
    (confirm_excess : Bool) (today : String) : List Deduction × Option ℚ :=
  let earnings :=
    ((milk.filter (fun r => r.farmer_code = code ∧ monthOf r.date = month)).map
      MilkRecord.amount).sum
  let prev_bal := get_advance_balance advances deductions code (some month)
  if ded_amt < 0 then (deductions, none)
  else if prev_bal < ded_amt then (deductions, none)
  else if earnings < ded_amt ∧ confirm_excess = false then (deductions, none)
  else
    (record_advance_deduction deductions code today month ded_amt
        ("User deduction for " ++ month),
      some (round2 (earnings - ded_amt)))

/-- The ASCII digit character for `n < 10`. -/
def digitChar (n : ℕ) : Char := Char.ofNat (48 + n)

/-- Gregorian leap years as Python's `datetime` implements them. -/
def isLeapYear (y : ℕ) : Bool := (y % 4 = 0 && y % 100 ≠ 0) || y % 400 = 0

/-- Length of a month in Python's `datetime` calendar. -/
def daysInMonth (y m : ℕ) : ℕ :=
  if m = 2 then (if isLeapYear y then 29 else 28)
  else if m = 4 ∨ m = 6 ∨ m = 9 ∨ m = 11 then 30
  else 31

/-- The dates `datetime` accepts: years 1..9999, real calendar days. -/
def isValidDate (y m d : ℕ) : Bool :=
  1 ≤ y && y ≤ 9999 && 1 ≤ m && m ≤ 12 && 1 ≤ d && d ≤ daysInMonth y m

/-- Value of a big-endian digit list. -/
def digitsVal (ds : List ℕ) : ℕ := ds.foldl (fun a d => 10 * a + d) 0

/-- Read exactly `k` ASCII digit bytes (as digit values); CPython's C
`fromisoformat` reads its fixed-width number fields this way. -/
def takeDigitsExact : ℕ → List ℕ → Option (List ℕ × List ℕ)
  | 0, bs => some ([], bs)
  | _ + 1, [] => none
  | k + 1, b :: bs =>
    if 48 ≤ b ∧ b ≤ 57 then
      (takeDigitsExact k bs).map (fun p => ((b - 48) :: p.1, p.2))
    else none

/-- Read an exactly-`k`-digit number from a byte list. -/
def readExact (k : ℕ) (bs : List ℕ) : Option (ℕ × List ℕ) :=
  (takeDigitsExact k bs).map (fun p => (digitsVal p.1, p.2))

/-- Consume one expected literal character. -/
def expectChar (c : Char) (cs : List Char) : Option (List Char) :=
  match cs with
  | x :: rest => if x = c then some rest else none
  | [] => none

/-- Start codepoints of the 66 runs of ten consecutive Unicode decimal
digits (category Nd, Unicode 14 as shipped with CPython 3.11).  Python's
regex `\d` in a str pattern matches exactly these characters, and `int()`
values each digit by its offset within its run. -/
def ndStarts : List ℕ :=
  [48, 1632, 1776, 1984, 2406, 2534, 2662, 2790, 2918, 3046, 3174, 3302,
   3430, 3558, 3664, 3792, 3872, 4160, 4240, 6112, 6160, 6470, 6608, 6784,
   6800, 6992, 7088, 7232, 7248, 42528, 43216, 43264, 43472, 43504, 43600,
   44016, 65296, 66720, 68912, 69734, 69872, 69942, 70096, 70384, 70736,
   70864, 71248, 71360, 71472, 71904, 72016, 72784, 73040, 73120, 92768,
   92864, 93008, 120782, 120792, 120802, 120812, 120822, 123200, 123632,
   125264, 130032]

/-- Decimal value of a Unicode decimal digit (what regex `\d` matches),
`none` for non-digits. -/
def ndDigitVal (c : Char) : Option ℕ :=
  (ndStarts.find? (fun s => decide (s ≤ c.toNat ∧ c.toNat < s + 10))).map
    (fun s => c.toNat - s)

/-- CPython `strptime`'s `%Y` year field: the regex `\d\d\d\d` — exactly
four Unicode decimal digits, valued by `int()`. -/
def readYear (cs : List Char) : Option (ℕ × List Char) :=
  match cs with
  | c1 :: c2 :: c3 :: c4 :: rest =>
    match ndDigitVal c1, ndDigitVal c2, ndDigitVal c3, ndDigitVal c4 with
    | some a, some b, some c, some d =>
      some (((a * 10 + b) * 10 + c) * 10 + d, rest)
    | _, _, _, _ => none
  | _ => none

/-- CPython `strptime`'s `%d` day field: the regex
`3[0-1]|[1-2]\d|0[1-9]|[1-9]| [1-9]`, alternatives tried left to right, so a
single digit 1-9 and a space-padded ` D` are accepted besides `0D`/`DD`; the
`\d` in the second alternative matches any Unicode decimal digit. -/
def readDay (cs : List Char) : Option (ℕ × List Char) :=
  match cs with
  | [] => none
  | [c1] => if '1' ≤ c1 ∧ c1 ≤ '9' then some (c1.toNat - 48, []) else none
  | c1 :: c2 :: rest =>
    if c1 = '3' ∧ (c2 = '0' ∨ c2 = '1') then some (30 + (c2.toNat - 48), rest)
    else if (c1 = '1' ∨ c1 = '2') ∧ (ndDigitVal c2).isSome then
      some ((c1.toNat - 48) * 10 + (ndDigitVal c2).getD 0, rest)
    else if c1 = '0' ∧ ('1' ≤ c2 ∧ c2 ≤ '9') then some (c2.toNat - 48, rest)
    else if '1' ≤ c1 ∧ c1 ≤ '9' then some (c1.toNat - 48, c2 :: rest)
    else if c1 = ' ' ∧ ('1' ≤ c2 ∧ c2 ≤ '9') then some (c2.toNat - 48, rest)
    else none

/-- CPython `strptime`'s `%m` month field: the regex `1[0-2]|0[1-9]|[1-9]`. -/
def readMonth (cs : List Char) : Option (ℕ × List Char) :=
  match cs with
  | [] => none
  | [c1] => if '1' ≤ c1 ∧ c1 ≤ '9' then some (c1.toNat - 48, []) else none
  | c1 :: c2 :: rest =>
    if c1 = '1' ∧ (c2 = '0' ∨ c2 = '1' ∨ c2 = '2') then
      some (10 + (c2.toNat - 48), rest)
    else if c1 = '0' ∧ ('1' ≤ c2 ∧ c2 ≤ '9') then some (c2.toNat - 48, rest)
    else if '1' ≤ c1 ∧ c1 ≤ '9' then some (c1.toNat - 48, c2 :: rest)
    else none

/-- `datetime.strptime` with format `%d‹sep›%m‹sep›%Y` applied to the whole
string: day and month fields follow CPython's `%d`/`%m` regexes, the year
field `%Y` is exactly four Unicode digits, nothing may remain after the
year, and the parsed triple must be a real calendar date. -/
def parseDMY (sep : Char) (cs : List Char) : Option (ℕ × ℕ × ℕ) :=
  match readDay cs with
  | none => none
  | some (d, r1) =>
    match expectChar sep r1 with
    | none => none
    | some r2 =>
      match readMonth r2 with
      | none => none
      | some (m, r3) =>
        match expectChar sep r3 with
        | none => none
        | some r4 =>
          match readYear r4 with
          | none => none
          | some (y, r5) =>
            if r5 = [] ∧ isValidDate y m d then some (y, m, d) else none

/-- `datetime.strptime` with format `%Y‹sep›%m‹sep›%d`. -/
def parseYMD (sep : Char) (cs : List Char) : Option (ℕ × ℕ × ℕ) :=
  match readYear cs with
  | none => none
  | some (y, r1) =>
    match expectChar sep r1 with
    | none => none
    | some r2 =>
      match readMonth r2 with
      | none => none
      | some (m, r3) =>
        match expectChar sep r3 with
        | none => none
        | some r4 =>
          match readDay r4 with
          | none => none
          | some (d, r5) =>
            if r5 = [] ∧ isValidDate y m d then some (y, m, d) else none

/-- Days in all years strictly before year `y`
(`datetime._days_before_year`). -/
def daysBeforeYear (y : ℕ) : ℕ :=
  (y - 1) * 365 + (y - 1) / 4 - (y - 1) / 100 + (y - 1) / 400

/-- Days before the first of month `m` in a non-leap year
(`datetime._DAYS_BEFORE_MONTH`). -/
def daysBeforeMonth (m : ℕ) : ℕ :=
  [0, 0, 31, 59, 90, 120, 151, 181, 212, 243, 273, 304, 334].getD m 0

/-- Month lengths in a non-leap year (`datetime._DAYS_IN_MONTH`). -/
def daysInMonthTable (m : ℕ) : ℕ :=
  [0, 31, 28, 31, 30, 31, 30, 31, 31, 30, 31, 30, 31].getD m 0

/-- `datetime._ord2ymd`: the proleptic-Gregorian date of ordinal `n`, where
day 1 is January 1 of year 1 (the leap flag of the source is inlined at its
two uses). -/
def ord2ymd (n : ℕ) : ℕ × ℕ × ℕ :=
  let n0 := n - 1
  let n400 := n0 / 146097
  let r400 := n0 % 146097
  let n100 := r400 / 36524
  let r100 := r400 % 36524
  let n4 := r100 / 1461
  let r4 := r100 % 1461
  let n1 := r4 / 365
  let r1 := r4 % 365
  let year := n400 * 400 + 1 + n100 * 100 + n4 * 4 + n1
  if n1 = 4 ∨ n100 = 4 then (year - 1, 12, 31)
  else
    let month := (r1 + 50) / 32
    let preceding := daysBeforeMonth month +
      (if 2 < month ∧ n1 = 3 ∧ (n4 ≠ 24 ∨ n100 = 3) then 1 else 0)
    if r1 < preceding then
      let month2 := month - 1
      let prec2 := preceding - (daysInMonthTable month2 +
        (if month2 = 2 ∧ n1 = 3 ∧ (n4 ≠ 24 ∨ n100 = 3) then 1 else 0))
      (year, month2, r1 - prec2 + 1)
    else (year, month, r1 - preceding + 1)

/-- `datetime._isoweek1monday`: the ordinal of the Monday starting ISO week 1
of year `y`. -/
def isoweek1monday (y : ℕ) : ℕ :=
  let firstday := daysBeforeYear y + 1
  let firstweekday := (firstday + 6) % 7
  let week1monday := firstday - firstweekday
  if 3 < firstweekday then week1monday + 7 else week1monday

/-- `datetime._isoweek_to_gregorian`: the Gregorian date of an ISO
year/week/day, with the week-53 validity rule and the year range checks. -/
def isoweekToGregorian (y w dy : ℕ) : Option (ℕ × ℕ × ℕ) :=
  if ¬(1 ≤ y ∧ y ≤ 9999) then none
  else if ¬((1 ≤ w ∧ w ≤ 52) ∨
      (w = 53 ∧
        ((daysBeforeYear y + 1) % 7 = 4 ∨
          ((daysBeforeYear y + 1) % 7 = 3 ∧ isLeapYear y = true)))) then none
  else if ¬(1 ≤ dy ∧ dy ≤ 7) then none
  else
    let p := ord2ymd (isoweek1monday y + (w - 1) * 7 + (dy - 1))
    if 1 ≤ p.1 ∧ p.1 ≤ 9999 then some p else none

/-- CPython `fromisoformat`'s separator search
(`find_isoformat_datetime_separator`), over the UTF-8 bytes of the string:
the byte index where the date part ends; the character there (any
character) separates date and time. -/
def isoFindSep (s : List ℕ) : Option ℕ :=
  let L := s.length
  if L = 7 then some 7
  else if s.getD 4 256 = 45 then
    if s.getD 5 256 = 87 then
      if 8 < L ∧ s.getD 8 256 = 45 then
        if L = 9 then none
        else if 10 < L ∧ (48 ≤ s.getD 10 256 ∧ s.getD 10 256 ≤ 57) then some 8
        else some 10
      else some 8
    else some 10
  else if s.getD 4 256 = 87 then
    let idx := 7 + ((s.drop 7).takeWhile (fun b => decide (48 ≤ b ∧ b ≤ 57))).length
    if idx < 9 then some idx
    else if idx % 2 = 0 then some 7
    else some 8
  else some 8

/-- CPython `_parse_isoformat_date` over UTF-8 bytes: `YYYY-MM-DD`, compact
`YYYYMMDD`, and the ISO week forms `YYYY-Www[-D]` and `YYYYWww[D]`, with
consistent use of the dash separator (byte 45; `W` is byte 87); week forms
go through `isoweekToGregorian`. -/
def parseIsoDate (bs : List ℕ) : Option (ℕ × ℕ × ℕ) :=
  match readExact 4 bs with
  | none => none
  | some (y, r1) =>
    let hasSep : Bool :=
      match r1 with
      | 45 :: _ => true
      | _ => false
    let r2 := if hasSep then r1.tail else r1
    match r2 with
    | 87 :: r3 =>
      match readExact 2 r3 with
      | none => none
      | some (w, r4) =>
        match r4 with
        | [] => isoweekToGregorian y w 1
        | c :: r5 =>
          if (decide (c = 45)) = hasSep then
            match readExact 1 (if hasSep then r5 else c :: r5) with
            | none => none
            | some (dy, r6) =>
              if r6 = [] then isoweekToGregorian y w dy else none
          else none
    | _ =>
      match readExact 2 r2 with
      | none => none
      | some (m, r5) =>
        let sepHere : Bool :=
          match r5 with
          | 45 :: _ => true
          | _ => false
        if sepHere = hasSep then
          match readExact 2 (if hasSep then r5.tail else r5) with
          | none => none
          | some (dd, r6) =>
            if r6 = [] ∧ isValidDate y m dd then some (y, m, dd) else none
        else none

/-- Trailing bytes after a parsed fraction: digits are consumed silently;
at the first non-digit CPython stops, accepting when a timezone marker
follows the span (`tol`) or the byte is NUL (the C parser treats NUL as the
end of its C string) and discarding everything after it. -/
def hmsFracTail (tol : Bool) : List ℕ → Bool
  | [] => true
  | b :: bs =>
    if 48 ≤ b ∧ b ≤ 57 then hmsFracTail tol bs else (tol || b == 0)

/-- Fractional part of a `fromisoformat` time: `min 6 rem` digits are parsed
and scaled to microseconds, the remaining characters must satisfy
`hmsFracTail`. -/
def hmsFrac (tol : Bool) (rest : List ℕ) : Option ℕ :=
  let to_parse := min 6 rest.length
  match readExact to_parse rest with
  | none => none
  | some (f, rest2) =>
    if hmsFracTail tol rest2 then some (f * 10 ^ (6 - to_parse)) else none

/-- CPython `parse_hh_mm_ss_ff` (the C implementation's loop unrolled):
hours, then optionally minutes and seconds, in either the extended `:`
layout (chosen when the character after the hours is `:`) or the basic
all-digits layout, each component optionally followed by a fraction
introduced by `.`, `,`, a `:` after seconds, or (basic layout) plain
concatenation.  `tol` records that a timezone marker sits right after the
span: CPython then tolerates (and discards) one junk byte immediately
before the marker; a NUL junk byte there is tolerated even without a
marker, because the C parser reads it as its C string's terminator. -/
def parse_hh_mm_ss_ff (tol : Bool) (ts : List ℕ) : Option (ℕ × ℕ × ℕ × ℕ) :=
  match readExact 2 ts with
  | none => none
  | some (h, r1) =>
    match r1 with
    | [] => some (h, 0, 0, 0)
    | c :: r2 =>
      if r2 = [] then (if tol ∨ c = 0 then some (h, 0, 0, 0) else none)
      else if c = 58 then
        match readExact 2 r2 with
        | none => none
        | some (m, r3) =>
          match r3 with
          | [] => some (h, m, 0, 0)
          | c2 :: r4 =>
            if r4 = [] then (if tol ∨ c2 = 0 then some (h, m, 0, 0) else none)
            else if c2 = 58 then
              match readExact 2 r4 with
              | none => none
              | some (s, r5) =>
                match r5 with
                | [] => some (h, m, s, 0)
                | c3 :: r6 =>
                  if r6 = [] then (if tol ∨ c3 = 0 then some (h, m, s, 0) else none)
                  else if c3 = 58 ∨ c3 = 46 ∨ c3 = 44 then
                    (hmsFrac tol r6).map (fun us => (h, m, s, us))
                  else none
            else if c2 = 46 ∨ c2 = 44 then
              (hmsFrac tol r4).map (fun us => (h, m, 0, us))
            else none
      else if c = 46 ∨ c = 44 then
        (hmsFrac tol r2).map (fun us => (h, 0, 0, us))
      else
        match readExact 2 (c :: r2) with
        | none => none
        | some (m, r3) =>
          match r3 with
          | [] => some (h, m, 0, 0)
          | c2 :: r4 =>
            if r4 = [] then (if tol ∨ c2 = 0 then some (h, m, 0, 0) else none)
            else if c2 = 46 ∨ c2 = 44 then
              (hmsFrac tol r4).map (fun us => (h, m, 0, us))
            else
              match readExact 2 (c2 :: r4) with
              | none => none
              | some (s, r5) =>
                match r5 with
                | [] => some (h, m, s, 0)
                | c3 :: r6 =>
                  if r6 = [] then (if tol ∨ c3 = 0 then some (h, m, s, 0) else none)
                  else if c3 = 46 ∨ c3 = 44 then
                    (hmsFrac tol r6).map (fun us => (h, m, s, us))
                  else (hmsFrac tol (c3 :: r6)).map (fun us => (h, m, s, us))

/-- CPython `fromisoformat`'s time validation, over UTF-8 bytes: the part
before the first timezone marker (`Z`, `+` or `-`: bytes 90, 43, 45) parses
as a time of day within bounds, and any timezone offset parses with a total
below 24 hours (`Z` must be the final byte or be followed by NUL, after
which CPython's C-string view ends). -/
def validIsoTime (t : List ℕ) : Bool :=
  let pre := t.takeWhile (fun b => !(b == 90 || b == 43 || b == 45))
  let post := t.dropWhile (fun b => !(b == 90 || b == 43 || b == 45))
  match parse_hh_mm_ss_ff (!post.isEmpty) pre with
  | none => false
  | some (h, mi, s, _) =>
    decide (h ≤ 23) && decide (mi ≤ 59) && decide (s ≤ 59) &&
      (match post with
      | [] => true
      | mark :: rest =>
        if mark = 90 then
          match rest with
          | [] => true
          | b :: _ => b == 0
        else
          match parse_hh_mm_ss_ff false rest with
          | none => false
          | some (th, tm, tss, tus) =>
            decide ((th * 3600 + tm * 60 + tss) * 1000000 + tus < 86400000000))

/-- UTF-8 encoding of one character; CPython's C `fromisoformat` parses the
UTF-8 bytes of its argument. -/
def utf8Bytes (c : Char) : List ℕ :=
  let n := c.toNat
  if n < 128 then [n]
  else if n < 2048 then [192 + n / 64, 128 + n % 64]
  else if n < 65536 then [224 + n / 4096, 128 + n / 64 % 64, 128 + n % 64]
  else [240 + n / 262144, 128 + n / 4096 % 64, 128 + n / 64 % 64, 128 + n % 64]

/-- Number of bytes CPython skips for the date/time separator: the UTF-8
sequence length encoded in the separator's lead byte. -/
def sepSkip (b : ℕ) : ℕ :=
  if b < 128 then 1
  else if 224 ≤ b ∧ b ≤ 239 then 3
  else if 240 ≤ b then 4
  else 2

/-- `datetime.fromisoformat` as CPython 3.11's C implementation parses it,
over the UTF-8 bytes of the string: reject under seven bytes, locate the
date/time separator with `isoFindSep`, parse the date part with
`parseIsoDate` and, when bytes follow the separator position, skip the
separator character (`sepSkip` of its lead byte) and validate the time part
(whose values the caller discards). -/
def fromisoformat (cs : List Char) : Option (ℕ × ℕ × ℕ) :=
  let bs := (cs.map utf8Bytes).flatten
  if bs.length < 7 then none
  else
    match isoFindSep bs with
    | none => none
    | some sep =>
      match parseIsoDate (bs.take sep) with
      | none => none
      | some ymd =>
        if sep < bs.length then
          if validIsoTime (bs.drop (sep + sepSkip (bs.getD sep 0))) then
            some ymd
          else none
        else some ymd

/-- Two-digit zero-padded rendering (`%02d` for values below 100). -/
def pad2 (n : ℕ) : List Char := [digitChar (n / 10 % 10), digitChar (n % 10)]

/-- Four-digit zero-padded rendering of values below 10000. -/
def pad4 (n : ℕ) : List Char :=
  [digitChar (n / 1000 % 10), digitChar (n / 100 % 10), digitChar (n / 10 % 10),
    digitChar (n % 10)]

/-- `strftime('%Y')` as glibc prints it: the year in plain decimal with NO
zero padding, so years below 1000 print with fewer than four digits (the
dates reaching it always have `1 ≤ y ≤ 9999`). -/
def yearChars (y : ℕ) : List Char :=
  if y < 10 then [digitChar (y % 10)]
  else if y < 100 then [digitChar (y / 10 % 10), digitChar (y % 10)]
  else if y < 1000 then
    [digitChar (y / 100 % 10), digitChar (y / 10 % 10), digitChar (y % 10)]
  else pad4 y

/-- `strftime('%Y-%m-%d')` of a date: unpadded year, zero-padded month and
day. -/
def isoChars (y m d : ℕ) : List Char :=
  yearChars y ++ '-' :: (pad2 m ++ '-' :: pad2 d)

/-- A date rendered as `DD‹sep›MM‹sep›YYYY`. -/
def fmtDMYChars (sep : Char) (y m d : ℕ) : List Char :=
  pad2 d ++ sep :: (pad2 m ++ sep :: pad4 y)

/-- A date rendered as `YYYY‹sep›MM‹sep›DD`. -/
def fmtYMDChars (sep : Char) (y m d : ℕ) : List Char :=
  pad4 y ++ sep :: (pad2 m ++ sep :: pad2 d)

/-- Python `str.isspace()` characters, the set `str.strip()` removes: ASCII
whitespace including vertical tab and form feed, the file/group/record/unit
separators 0x1c-0x1f, and the Unicode space and line/paragraph separator
characters. -/
def pyIsSpace (c : Char) : Bool :=
  decide ((9 ≤ c.toNat ∧ c.toNat ≤ 13) ∨ (28 ≤ c.toNat ∧ c.toNat ≤ 31) ∨
    c.toNat = 32 ∨ c.toNat = 133 ∨ c.toNat = 160 ∨ c.toNat = 5760 ∨
    (8192 ≤ c.toNat ∧ c.toNat ≤ 8202) ∨ c.toNat = 8232 ∨ c.toNat = 8233 ∨
    c.toNat = 8239 ∨ c.toNat = 8287 ∨ c.toNat = 12288)

/-- Python's `str.strip()`: drop leading and trailing whitespace. -/
def pyStrip (cs : List Char) : List Char :=
  ((cs.dropWhile pyIsSpace).reverse.dropWhile pyIsSpace).reverse

/-- `normalize_date_input` from DMS.py (lines 50-76): reject empty input,
strip, try the four `strptime` formats in order, then the ISO fallback;
`none` models the raised `ValueError`.  The result is the parsed date
rendered by `strftime('%Y-%m-%d')`. -/
def normalize_date_input (d : String) : Option String :=
  if d = "" then none
  else
    let s := pyStrip d.data
    match parseDMY '/' s with
    | some (y, m, dd) => some (isoChars y m dd).asString
    | none =>
      match parseDMY '-' s with
      | some (y, m, dd) => some (isoChars y m dd).asString
      | none =>
        match parseYMD '-' s with
        | some (y, m, dd) => some (isoChars y m dd).asString
        | none =>
          match parseYMD '/' s with
          | some (y, m, dd) => some (isoChars y m dd).asString
          | none =>
            match fromisoformat s with
            | some (y, m, dd) => some (isoChars y m dd).asString
            | none => none

/-- The database state `record_milk_late` touches: the `farmers` table
(code and name), the `rate_table`, and the `milk_records` table. -/
structure DairyState where
  farmers : List (ℤ × String)
  rate_table : List RateRow
  milk_records : List MilkRecord

/-- The `WHERE farmer_code=? AND date=? AND shift=? AND category=?` key
used by `record_milk_late`. -/
def milkKeyMatches (r : MilkRecord) (farmer_code : ℤ)
    (date shift category : String) : Bool :=
  decide (r.farmer_code = farmer_code ∧ r.date = date ∧ r.shift = shift ∧
    r.category = category)

/-- `record_milk_late` from DMS.py (lines 405-480).  `litres`, `fat` and
`snf` arrive as `Option ℚ`: `none` models a value `float()` cannot parse.
Returns the Python function's Boolean result and the new `milk_records`
table (the only table it writes). -/
def record_milk_late (st : DairyState) (farmer_code : ℤ) (date_str : String)
    (shift : String) (litres fat snf : Option ℚ) (category : String) :
    Bool × List MilkRecord :=
  match normalize_date_input date_str with
  | none => (false, st.milk_records)
  | some date_db =>
    if st.farmers.any (fun f => f.1 = farmer_code) then
      match litres, fat, snf with
      | some l, some fa, some s =>
        if fa < 0 ∨ s < 0 ∨ l < 0 then (false, st.milk_records)
        else
          let rate := find_rate_for st.rate_table category fa s
          let amount := round2 (l * rate)
          if st.milk_records.any
              (fun r => milkKeyMatches r farmer_code date_db shift category) then
            (true, st.milk_records.map (fun r =>
              if milkKeyMatches r farmer_code date_db shift category then
                { r with litres := l, fat := fa, snf := s, rate := rate,
                         amount := amount }
              else r))
          else
            (true, st.milk_records ++
              [⟨farmer_code, date_db, shift, l, fa, s, rate, amount, category⟩])
      | _, _, _ => (false, st.milk_records)
    else (false, st.milk_records)

/-- Two milk records agree on the `(farmer_code, date, shift, category)`
key. -/
def sameKey (a b : MilkRecord) : Prop :=
  a.farmer_code = b.farmer_code ∧ a.date = b.date ∧ a.shift = b.shift ∧
    a.category = b.category

/-- At most one `milk_records` row per key: no two distinct positions hold
the same key. -/
def atMostOnePerKey (records : List MilkRecord) : Prop :=
  records.Pairwise (fun a b => ¬ sameKey a b)

/-- C6: both `get_shift_for_time` implementations return only "Morning" or
"Evening", and the result is determined solely by the hour of the datetime. -/
theorem shift_total_and_hour_determined (dt : Timestamp) :
    (get_shift_for_time dt = "Morning" ∨ get_shift_for_time dt = "Evening") ∧
    (ganesh_get_shift_for_time dt = "Morning" ∨
      ganesh_get_shift_for_time dt = "Evening") ∧
    (∀ dt2 : Timestamp, dt.hour = dt2.hour →
      get_shift_for_time dt = get_shift_for_time dt2 ∧
      ganesh_get_shift_for_time dt = ganesh_get_shift_for_time dt2) := by
  refine ⟨?_, ?_, ?_⟩
  · unfold get_shift_for_time; split <;> simp
  · unfold ganesh_get_shift_for_time; split
    · simp
    · split <;> simp
  · intro dt2 h
    unfold get_shift_for_time ganesh_get_shift_for_time
    rw [h]
    exact ⟨rfl, rfl⟩

/-- Witness for C6 at a concrete time. -/
theorem shift_total_and_hour_determined_witness :
    get_shift_for_time ⟨9, 30⟩ = "Morning" ∨
      get_shift_for_time ⟨9, 30⟩ = "Evening" :=
  (shift_total_and_hour_determined ⟨9, 30⟩).1

/-- C7 counterexample: at 04:00 the two applications disagree about the
shift (DMS.py says Evening, ganesh_dairy_pro_v_5_5.py says Morning). -/
theorem shift_functions_differ_at_four :
    ¬ (get_shift_for_time ⟨4, 0⟩ = ganesh_get_shift_for_time ⟨4, 0⟩) := by
  decide

/-- C7 amended: the two `get_shift_for_time` implementations agree exactly
on the hours 6..11 (both Morning) and 16..22 (both Evening); for hours
0..5, 12..15 and 23 they disagree. -/
theorem shift_functions_agree_iff (dt : Timestamp) (hlt : dt.hour < 24) :
    get_shift_for_time dt = ganesh_get_shift_for_time dt ↔
      ((6 ≤ dt.hour ∧ dt.hour ≤ 11) ∨ (16 ≤ dt.hour ∧ dt.hour ≤ 22)) := by
  obtain ⟨h, m⟩ := dt
  simp only [get_shift_for_time, ganesh_get_shift_for_time]
  interval_cases h <;> simp

/-- Witness for C7's amended claim at a concrete time. -/
theorem shift_functions_agree_iff_witness :
    get_shift_for_time ⟨10, 0⟩ = ganesh_get_shift_for_time ⟨10, 0⟩ ↔
      ((6 ≤ 10 ∧ 10 ≤ 11) ∨ (16 ≤ 10 ∧ 10 ≤ 22)) :=
  shift_functions_agree_iff ⟨10, 0⟩ (by decide)

theorem foldlMinKey_spec (key : RateRow → ℚ) :
    ∀ (l : List RateRow) (b : RateRow),
      (l.foldl (fun best x => if key x < key best then x else best) b = b ∨
        l.foldl (fun best x => if key x < key best then x else best) b ∈ l) ∧
      key (l.foldl (fun best x => if key x < key best then x else best) b) ≤ key b ∧
      ∀ x ∈ l, key (l.foldl (fun best x => if key x < key best then x else best) b) ≤ key x
  | [], b => by simp
  | c :: cs, b => by
    obtain ⟨hmem, hle, hall⟩ := foldlMinKey_spec key cs (if key c < key b then c else b)
    have hle2 : key (if key c < key b then c else b) ≤ key b := by
      split
      · exact le_of_lt (by assumption)
      · exact le_refl _
    have hlec : key (if key c < key b then c else b) ≤ key c := by
      split
      · exact le_refl _
      · exact le_of_not_lt (by assumption)
    simp only [List.foldl_cons]
    refine ⟨?_, le_trans hle hle2, ?_⟩
    · rcases hmem with h | h
      · rw [h]
        split
        · exact Or.inr (List.mem_cons_self _ _)
        · exact Or.inl rfl
      · exact Or.inr (List.mem_cons_of_mem _ h)
    · intro x hx
      rcases List.mem_cons.mp hx with h | h
      · subst h
        exact le_trans hle hlec
      · exact hall x h

theorem minByKey_spec (key : RateRow → ℚ) (l : List RateRow) (r : RateRow)
    (h : minByKey key l = some r) : r ∈ l ∧ ∀ x ∈ l, key r ≤ key x := by
  cases l with
  | nil => simp [minByKey] at h
  | cons c cs =>
    simp only [minByKey, Option.some.injEq] at h
    obtain ⟨hmem, hle, hall⟩ := foldlMinKey_spec key cs c
    subst h
    constructor
    · rcases hmem with h2 | h2
      · rw [h2]; exact List.mem_cons_self _ _
      · exact List.mem_cons_of_mem _ h2
    · intro x hx
      rcases List.mem_cons.mp hx with h2 | h2
      · exact h2 ▸ hle
      · exact hall x h2

theorem minByKey_eq_none (key : RateRow → ℚ) (l : List RateRow) :
    minByKey key l = none ↔ l = [] := by
  cases l <;> simp [minByKey]

/-- C5: on a sorted code list (as delivered by `ORDER BY farmer_code`),
`get_next_farmer_code` returns the least integer `n ≥ 1` that is not an
existing farmer code, so deleted codes are reused. -/
theorem get_next_farmer_code_least (codes : List ℤ) (h : codes.Sorted (· ≤ ·)) :
    1 ≤ get_next_farmer_code codes ∧ get_next_farmer_code codes ∉ codes ∧
      ∀ m : ℤ, 1 ≤ m → m ∉ codes → get_next_farmer_code codes ≤ m := by
  suffices hgen : ∀ (l : List ℤ) (n : ℤ), l.Sorted (· ≤ ·) →
      n ≤ nextCodeLoop l n ∧ nextCodeLoop l n ∉ l ∧
        ∀ m : ℤ, n ≤ m → m < nextCodeLoop l n → m ∈ l by
    obtain ⟨ha, hb, hm⟩ := hgen codes 1 h
    unfold get_next_farmer_code
    refine ⟨ha, hb, ?_⟩
    intro m h1 h2
    by_contra hlt
    exact h2 (hm m h1 (by omega))
  intro l
  induction l with
  | nil => intro n _; simp [nextCodeLoop]
  | cons c cs ih =>
    intro n hs
    rw [List.sorted_cons] at hs
    obtain ⟨hc, hcs⟩ := hs
    by_cases h1 : c = n
    · subst h1
      obtain ⟨ha, hb, hm⟩ := ih (c + 1) hcs
      rw [show nextCodeLoop (c :: cs) c = nextCodeLoop cs (c + 1) from by
        simp [nextCodeLoop]]
      refine ⟨by omega, ?_, ?_⟩
      · intro hmem
        rcases List.mem_cons.mp hmem with he | he
        · omega
        · exact hb he
      · intro m hm1 hm2
        by_cases hmc : m = c
        · exact hmc ▸ List.mem_cons_self _ _
        · exact List.mem_cons_of_mem _ (hm m (by omega) hm2)
    · by_cases h2 : n < c
      · rw [show nextCodeLoop (c :: cs) n = n from by simp [nextCodeLoop, h1, h2]]
        refine ⟨le_refl n, ?_, ?_⟩
        · intro hmem
          rcases List.mem_cons.mp hmem with he | he
          · omega
          · have := hc n he
            omega
        · intro m hm1 hm2
          omega
      · rw [show nextCodeLoop (c :: cs) n = nextCodeLoop cs n from by
          simp [nextCodeLoop, h1, h2]]
        obtain ⟨ha, hb, hm⟩ := ih n hcs
        refine ⟨ha, ?_, ?_⟩
        · intro hmem
          rcases List.mem_cons.mp hmem with he | he
          · omega
          · exact hb he
        · intro m hm1 hm2
          exact List.mem_cons_of_mem _ (hm m hm1 hm2)

/-- Witness for C5 on a concrete table with a gap at code 3. -/
theorem get_next_farmer_code_least_witness :
    1 ≤ get_next_farmer_code [1, 2, 4] ∧
      get_next_farmer_code [1, 2, 4] ∉ ([1, 2, 4] : List ℤ) ∧
      ∀ m : ℤ, 1 ≤ m → m ∉ ([1, 2, 4] : List ℤ) →
        get_next_farmer_code [1, 2, 4] ≤ m :=
  get_next_farmer_code_least [1, 2, 4] (by decide)

/-- C2: the advance balance at month `m` is `round2 (A - D)` where `A` sums
every advance ever recorded for the farmer (the advances' dates are never
consulted) and `D` sums the deductions whose month is strictly below `m`;
with no month, `D` sums all of the farmer's deductions. -/
theorem get_advance_balance_spec (advances : List Advance)
    (deductions : List Deduction) (c : ℤ) (m : String) :
    (get_advance_balance advances deductions c (some m) =
      round2
        ((((advances.filter (fun a => a.farmer_code = c)).map Advance.amount).sum) -
          (((deductions.filter
              (fun d => d.farmer_code = c ∧ d.month < m)).map Deduction.amount).sum))) ∧
    (get_advance_balance advances deductions c none =
      round2
        ((((advances.filter (fun a => a.farmer_code = c)).map Advance.amount).sum) -
          (((deductions.filter (fun d => d.farmer_code = c)).map Deduction.amount).sum))) ∧
    (∀ f : String → String,
      get_advance_balance
          (advances.map (fun a => { a with date := f a.date })) deductions c (some m) =
        get_advance_balance advances deductions c (some m)) := by
  refine ⟨rfl, rfl, ?_⟩
  intro f
  have hsum : ∀ l : List Advance,
      (((l.map (fun a => { a with date := f a.date })).filter
          (fun a => a.farmer_code = c)).map Advance.amount).sum =
        ((l.filter (fun a => a.farmer_code = c)).map Advance.amount).sum := by
    intro l
    induction l with
    | nil => rfl
    | cons a as ih =>
      by_cases hac : a.farmer_code = c <;> simp [hac, ih]
  simp only [get_advance_balance, hsum]

/-- C1: `find_rate_for` resolves the per-litre rate in three stages: rows
matching (category, fat rounded to one decimal) yield the two-decimal
rounded rate of a row with SNF closest to the given SNF; failing that, any
row of the category with fat closest to the rounded fat; failing that, the
linear fallback formula with base (5, 45) for categories starting with
"buf" (case-insensitively) and (3, 30) otherwise. -/
theorem find_rate_for_three_stage (table : List RateRow) (category : String)
    (fat snf : ℚ) (hcat : category ≠ "") :
    ((∃ r ∈ table, r.category = category ∧ r.fat = roundFat fat) →
      ∃ r ∈ table, r.category = category ∧ r.fat = roundFat fat ∧
        (∀ r2 ∈ table, r2.category = category → r2.fat = roundFat fat →
          |r.snf - snf| ≤ |r2.snf - snf|) ∧
        find_rate_for table category fat snf = round2 r.rate) ∧
    ((¬ ∃ r ∈ table, r.category = category ∧ r.fat = roundFat fat) →
      (∃ r ∈ table, r.category = category) →
      ∃ r ∈ table, r.category = category ∧
        (∀ r2 ∈ table, r2.category = category →
          |r.fat - roundFat fat| ≤ |r2.fat - roundFat fat|) ∧
        find_rate_for table category fat snf = round2 r.rate) ∧
    ((¬ ∃ r ∈ table, r.category = category) →
      find_rate_for table category fat snf =
        round2 (max 0 ((if startsWithBuf category then (45 : ℚ) else 30) +
          (fat - (if startsWithBuf category then (5 : ℚ) else 3)) * 5))) := by
  have hmemf1 : ∀ r : RateRow,
      r ∈ table.filter (fun r => r.category = category ∧ r.fat = roundFat fat) ↔
        (r ∈ table ∧ r.category = category ∧ r.fat = roundFat fat) := by
    intro r
    simp [List.mem_filter]
  have hmemf2 : ∀ r : RateRow,
      r ∈ table.filter (fun r => r.category = category) ↔
        (r ∈ table ∧ r.category = category) := by
    intro r
    simp [List.mem_filter]
  refine ⟨?_, ?_, ?_⟩
  · rintro ⟨r0, hr0t, hr0c, hr0f⟩
    have h0 : r0 ∈ table.filter
        (fun r => r.category = category ∧ r.fat = roundFat fat) :=
      (hmemf1 r0).mpr ⟨hr0t, hr0c, hr0f⟩
    simp only [find_rate_for, if_neg hcat]
    cases hm1 : minByKey (fun r => |r.snf - snf|)
        (table.filter (fun r : RateRow =>
          r.category = category ∧ r.fat = roundFat fat)) with
    | none =>
      rw [minByKey_eq_none] at hm1
      rw [hm1] at h0
      simp at h0
    | some r =>
      obtain ⟨hrmem, hrmin⟩ := minByKey_spec _ _ _ hm1
      obtain ⟨hrt, hrc, hrf⟩ := (hmemf1 r).mp hrmem
      exact ⟨r, hrt, hrc, hrf,
        fun r2 h2t h2c h2f => hrmin r2 ((hmemf1 r2).mpr ⟨h2t, h2c, h2f⟩), rfl⟩
  · intro hno hyes
    have h1 : table.filter
        (fun r => r.category = category ∧ r.fat = roundFat fat) = [] := by
      rw [List.eq_nil_iff_forall_not_mem]
      intro r hr
      obtain ⟨hrt, hrc, hrf⟩ := (hmemf1 r).mp hr
      exact hno ⟨r, hrt, hrc, hrf⟩
    obtain ⟨r0, hr0t, hr0c⟩ := hyes
    have h0 : r0 ∈ table.filter (fun r : RateRow => r.category = category) :=
      (hmemf2 r0).mpr ⟨hr0t, hr0c⟩
    simp only [find_rate_for, if_neg hcat]
    cases hm2 : minByKey (fun r => |r.fat - roundFat fat|)
        (table.filter (fun r : RateRow => r.category = category)) with
    | none =>
      rw [minByKey_eq_none] at hm2
      rw [hm2] at h0
      simp at h0
    | some r =>
      obtain ⟨hrmem, hrmin⟩ := minByKey_spec _ _ _ hm2
      obtain ⟨hrt, hrc⟩ := (hmemf2 r).mp hrmem
      refine ⟨r, hrt, hrc,
        fun r2 h2t h2c => hrmin r2 ((hmemf2 r2).mpr ⟨h2t, h2c⟩), ?_⟩
      rw [h1]
      rfl
  · intro hno
    have h2 : table.filter (fun r : RateRow => r.category = category) = [] := by
      rw [List.eq_nil_iff_forall_not_mem]
      intro r hr
      obtain ⟨hrt, hrc⟩ := (hmemf2 r).mp hr
      exact hno ⟨r, hrt, hrc⟩
    have h1 : table.filter
        (fun r => r.category = category ∧ r.fat = roundFat fat) = [] := by
      rw [List.eq_nil_iff_forall_not_mem]
      intro r hr
      obtain ⟨hrt, hrc, _⟩ := (hmemf1 r).mp hr
      exact hno ⟨r, hrt, hrc⟩
    simp only [find_rate_for, if_neg hcat]
    rw [h1, h2]
    cases hbuf : startsWithBuf category <;> simp [minByKey, hbuf]

/-- Witness for C1's first stage on a concrete two-row rate table. -/
theorem find_rate_for_three_stage_witness :
    ∃ r ∈ [(⟨"Cow", 7/2, 17/2, 35⟩ : RateRow), ⟨"Cow", 7/2, 9, 36⟩],
      r.category = "Cow" ∧ r.fat = roundFat (7/2) ∧
      (∀ r2 ∈ [(⟨"Cow", 7/2, 17/2, 35⟩ : RateRow), ⟨"Cow", 7/2, 9, 36⟩],
        r2.category = "Cow" → r2.fat = roundFat (7/2) →
          |r.snf - 17/2| ≤ |r2.snf - 17/2|) ∧
      find_rate_for [⟨"Cow", 7/2, 17/2, 35⟩, ⟨"Cow", 7/2, 9, 36⟩]
          "Cow" (7/2) (17/2) = round2 r.rate :=
  (find_rate_for_three_stage
      [⟨"Cow", 7/2, 17/2, 35⟩, ⟨"Cow", 7/2, 9, 36⟩] "Cow" (7/2) (17/2)
      (by decide)).1
    (by
      refine ⟨⟨"Cow", 7/2, 17/2, 35⟩, by simp, rfl, ?_⟩
      show (7 : ℚ)/2 = roundFat (7/2)
      norm_num [roundFat, pyRound])

/-- C3: in the Generate Monthly Bill operation, a saved bill's net payable
is `round2 (earnings - deduction)` with earnings the month's milk-amount
sum for the farmer; a deduction row is appended only when the entered
deduction is nonnegative and within the advance balance up to that month,
and a rejected popup leaves the advance_deductions table unchanged. -/
theorem generate_and_save_spec (milk : List MilkRecord) (advances : List Advance)
    (deductions : List Deduction) (code : ℤ) (month : String) (ded_amt : ℚ)
    (confirm_excess : Bool) (today : String) :
    (∀ n : ℚ,
      (generate_and_save milk advances deductions code month ded_amt
          confirm_excess today).2 = some n →
        n = round2
          ((((milk.filter (fun r => r.farmer_code = code ∧ monthOf r.date = month)).map
              MilkRecord.amount).sum) - ded_amt)) ∧
    ((generate_and_save milk advances deductions code month ded_amt
        confirm_excess today).1 ≠ deductions →
      0 ≤ ded_amt ∧
        ded_amt ≤ get_advance_balance advances deductions code (some month)) ∧
    ((generate_and_save milk advances deductions code month ded_amt
        confirm_excess today).2 = none →
      (generate_and_save milk advances deductions code month ded_amt
        confirm_excess today).1 = deductions) ∧
    ((generate_and_save milk advances deductions code month ded_amt
        confirm_excess today).2 ≠ none →
      (generate_and_save milk advances deductions code month ded_amt
          confirm_excess today).1 =
        deductions ++ [⟨code, today, month, ded_amt, "User deduction for " ++ month⟩]) := by
  simp only [generate_and_save]
  split_ifs with h1 h2 h3
  · simp
  · simp
  · simp
  · refine ⟨?_, ?_, ?_, ?_⟩
    · intro n hn
      simp only [Option.some.injEq] at hn
      exact hn.symm
    · intro _
      exact ⟨le_of_not_lt h1, le_of_not_lt h2⟩
    · intro hc
      simp at hc
    · intro _
      simp [record_advance_deduction]

/-- Witness for C3 on a one-record, one-advance state where the bill is
accepted. -/
theorem generate_and_save_spec_witness :
    (generate_and_save [⟨7, "2024-05-01", "Morning", 10, 4, 8, 40, 400, "Cow"⟩]
        [⟨7, "2024-01-10", "seed", 500⟩] [] 7 "2024-05" 100 false "2024-06-01").1 ≠
        ([] : List Deduction) →
      (0 : ℚ) ≤ 100 ∧
        (100 : ℚ) ≤ get_advance_balance [⟨7, "2024-01-10", "seed", 500⟩] [] 7
          (some "2024-05") :=
  (generate_and_save_spec [⟨7, "2024-05-01", "Morning", 10, 4, 8, 40, 400, "Cow"⟩]
      [⟨7, "2024-01-10", "seed", 500⟩] [] 7 "2024-05" 100 false "2024-06-01").2.1

/-- C9: `record_milk_late` succeeds (returns True) exactly when the date
string parses, the farmer exists, and litres/fat/snf are parseable and
nonnegative; on every failure it returns False and leaves `milk_records`
unchanged. -/
theorem record_milk_late_validation (st : DairyState) (farmer_code : ℤ)
    (date_str shift : String) (litres fat snf : Option ℚ) (category : String) :
    ((record_milk_late st farmer_code date_str shift litres fat snf category).1 =
        true ↔
      (normalize_date_input date_str ≠ none ∧
        (∃ f ∈ st.farmers, f.1 = farmer_code) ∧
        (∃ l : ℚ, litres = some l ∧ 0 ≤ l) ∧
        (∃ fa : ℚ, fat = some fa ∧ 0 ≤ fa) ∧
        (∃ s : ℚ, snf = some s ∧ 0 ≤ s))) ∧
    ((record_milk_late st farmer_code date_str shift litres fat snf category).1 =
        false →
      (record_milk_late st farmer_code date_str shift litres fat snf category).2 =
        st.milk_records) := by
  simp only [record_milk_late]
  cases hn : normalize_date_input date_str with
  | none => simp
  | some date_db =>
    simp only []
    by_cases hf : st.farmers.any (fun f => f.1 = farmer_code) = true
    · rw [if_pos hf]
      rw [List.any_eq_true] at hf
      obtain ⟨f0, hf0m, hf0e⟩ := hf
      rw [decide_eq_true_eq] at hf0e
      cases litres with
      | none => simp
      | some l =>
        cases fat with
        | none => simp
        | some fa =>
          cases snf with
          | none => simp
          | some s =>
            simp only []
            by_cases hneg : fa < 0 ∨ s < 0 ∨ l < 0
            · rw [if_pos hneg]
              refine ⟨?_, fun _ => rfl⟩
              constructor
              · intro h
                simp at h
              · rintro ⟨-, -, ⟨l2, hl2, hl3⟩, ⟨f2, hf2, hf3⟩, ⟨s2, hs2, hs3⟩⟩
                rw [Option.some_inj] at hl2 hf2 hs2
                subst hl2
                subst hf2
                subst hs2
                rcases hneg with h | h | h <;> linarith
            · rw [if_neg hneg]
              push_neg at hneg
              obtain ⟨hfa0, hs0, hl0⟩ := hneg
              constructor
              · constructor
                · intro _
                  exact ⟨by simp, ⟨f0, hf0m, hf0e⟩, ⟨l, rfl, hl0⟩,
                    ⟨fa, rfl, hfa0⟩, ⟨s, rfl, hs0⟩⟩
                · intro _
                  split_ifs <;> rfl
              · intro h
                split_ifs at h
    · rw [if_neg hf]
      refine ⟨?_, fun _ => rfl⟩
      constructor
      · intro h
        simp at h
      · rintro ⟨-, ⟨f0, hf0m, hf0e⟩, -⟩
        exact (hf (List.any_eq_true.mpr ⟨f0, hf0m, decide_eq_true hf0e⟩)).elim

/-- Witness for C9: an unparseable date string is rejected and the table is
untouched. -/
theorem record_milk_late_validation_witness :
    (record_milk_late ⟨[], [], []⟩ 1 "x" "Morning" none none none "Cow").2 =
      ([] : List MilkRecord) :=
  (record_milk_late_validation ⟨[], [], []⟩ 1 "x" "Morning" none none none
      "Cow").2 rfl

theorem milkKeyMatches_update (r : MilkRecord) (fc : ℤ) (date shift cat : String)
    (l fa s rate amt : ℚ) :
    milkKeyMatches
        { r with litres := l, fat := fa, snf := s, rate := rate, amount := amt }
        fc date shift cat =
      milkKeyMatches r fc date shift cat := rfl

/-- C8: `record_milk_late` preserves at-most-one-row-per-key: when a row
with the `(farmer_code, date, shift, category)` key exists it is updated in
place (litres, fat, snf, rate, amount) with no insertion, and a new row is
appended only when no such row exists. -/
theorem record_milk_late_upsert (st : DairyState) (farmer_code : ℤ)
    (date_str shift : String) (litres fat snf : Option ℚ) (category : String)
    (hinv : atMostOnePerKey st.milk_records) :
    atMostOnePerKey
      (record_milk_late st farmer_code date_str shift litres fat snf category).2 ∧
    (∀ date_db, normalize_date_input date_str = some date_db →
      (record_milk_late st farmer_code date_str shift litres fat snf category).1 =
        true →
      ∀ l fa s : ℚ, litres = some l → fat = some fa → snf = some s →
        ((∃ r ∈ st.milk_records,
            milkKeyMatches r farmer_code date_db shift category = true) →
          (record_milk_late st farmer_code date_str shift litres fat snf
              category).2.length = st.milk_records.length ∧
          (∀ r ∈ (record_milk_late st farmer_code date_str shift litres fat snf
              category).2,
            milkKeyMatches r farmer_code date_db shift category = true →
              r.litres = l ∧ r.fat = fa ∧ r.snf = s ∧
              r.rate = find_rate_for st.rate_table category fa s ∧
              r.amount = round2 (l * find_rate_for st.rate_table category fa s)) ∧
          (∀ r ∈ st.milk_records,
            milkKeyMatches r farmer_code date_db shift category = false →
              r ∈ (record_milk_late st farmer_code date_str shift litres fat snf
                category).2)) ∧
        ((¬ ∃ r ∈ st.milk_records,
            milkKeyMatches r farmer_code date_db shift category = true) →
          (record_milk_late st farmer_code date_str shift litres fat snf
              category).2 =
            st.milk_records ++
              [⟨farmer_code, date_db, shift, l, fa, s,
                find_rate_for st.rate_table category fa s,
                round2 (l * find_rate_for st.rate_table category fa s),
                category⟩])) := by
  cases hn : normalize_date_input date_str with
  | none =>
    have heq : record_milk_late st farmer_code date_str shift litres fat snf
        category = (false, st.milk_records) := by
      simp [record_milk_late, hn]
    constructor
    · rw [heq]
      exact hinv
    · intro date_db hdb
      cases hdb
  | some date_db0 =>
    by_cases hf : st.farmers.any (fun f => f.1 = farmer_code) = true
    · cases litres with
      | none =>
        have heq : record_milk_late st farmer_code date_str shift none fat snf
            category = (false, st.milk_records) := by
          simp [record_milk_late, hn, hf]
        refine ⟨by rw [heq]; exact hinv, ?_⟩
        intro date_db hdb hsucc l fa s hl
        cases hl
      | some l =>
        cases fat with
        | none =>
          have heq : record_milk_late st farmer_code date_str shift (some l) none
              snf category = (false, st.milk_records) := by
            simp [record_milk_late, hn, hf]
          refine ⟨by rw [heq]; exact hinv, ?_⟩
          intro date_db hdb hsucc l2 fa s hl hfa
          cases hfa
        | some fa =>
          cases snf with
          | none =>
            have heq : record_milk_late st farmer_code date_str shift (some l)
                (some fa) none category = (false, st.milk_records) := by
              simp [record_milk_late, hn, hf]
            refine ⟨by rw [heq]; exact hinv, ?_⟩
            intro date_db hdb hsucc l2 fa2 s hl hfa hs
            cases hs
          | some s =>
            by_cases hneg : fa < 0 ∨ s < 0 ∨ l < 0
            · have heq : record_milk_late st farmer_code date_str shift (some l)
                  (some fa) (some s) category = (false, st.milk_records) := by
                simp only [record_milk_late, hn]
                rw [if_pos hf, if_pos hneg]
              refine ⟨by rw [heq]; exact hinv, ?_⟩
              intro date_db hdb hsucc
              rw [heq] at hsucc
              simp at hsucc
            · by_cases hex : st.milk_records.any
                  (fun r => milkKeyMatches r farmer_code date_db0 shift category) =
                  true
              · have heq : record_milk_late st farmer_code date_str shift (some l)
                    (some fa) (some s) category =
                    (true, st.milk_records.map (fun r =>
                      if milkKeyMatches r farmer_code date_db0 shift category then
                        { r with
                            litres := l
                            fat := fa
                            snf := s
                            rate := find_rate_for st.rate_table category fa s
                            amount :=
                              round2 (l * find_rate_for st.rate_table category fa s) }
                      else r)) := by
                  simp only [record_milk_late, hn]
                  rw [if_pos hf, if_neg hneg, if_pos hex]
                constructor
                · rw [heq]
                  refine List.Pairwise.map _ ?_ hinv
                  intro a b hab hsk
                  apply hab
                  unfold sameKey at hsk ⊢
                  revert hsk
                  split <;> split <;> (intro hsk; simpa using hsk)
                · intro date_db hdb hsucc l2 fa2 s2 hl2 hfa2 hs2
                  rw [Option.some_inj] at hdb hl2 hfa2 hs2
                  subst hdb
                  subst hl2
                  subst hfa2
                  subst hs2
                  refine ⟨?_, ?_⟩
                  · intro _
                    refine ⟨by rw [heq]; simp, ?_, ?_⟩
                    · rw [heq]
                      intro r hr hkey
                      rw [List.mem_map] at hr
                      obtain ⟨r0, hr0, rfl⟩ := hr
                      by_cases hm : milkKeyMatches r0 farmer_code date_db0 shift
                          category = true
                      · rw [if_pos hm]
                        exact ⟨rfl, rfl, rfl, rfl, rfl⟩
                      · rw [if_neg hm] at hkey
                        exact absurd hkey hm
                    · rw [heq]
                      intro r hr hkeyf
                      rw [List.mem_map]
                      refine ⟨r, hr, ?_⟩
                      rw [if_neg (by simp [hkeyf])]
                  · intro hnex
                    exact absurd (List.any_eq_true.mp hex) hnex
              · have heq : record_milk_late st farmer_code date_str shift (some l)
                    (some fa) (some s) category =
                    (true, st.milk_records ++
                      [⟨farmer_code, date_db0, shift, l, fa, s,
                        find_rate_for st.rate_table category fa s,
                        round2 (l * find_rate_for st.rate_table category fa s),
                        category⟩]) := by
                  simp only [record_milk_late, hn]
                  rw [if_pos hf, if_neg hneg, if_neg hex]
                constructor
                · rw [heq]
                  unfold atMostOnePerKey
                  rw [List.pairwise_append]
                  refine ⟨hinv, by simp, ?_⟩
                  intro a ha b hb
                  simp only [List.mem_singleton] at hb
                  subst hb
                  intro hsk
                  obtain ⟨h1, h2, h3, h4⟩ := hsk
                  exact hex (List.any_eq_true.mpr
                    ⟨a, ha, decide_eq_true ⟨h1, h2, h3, h4⟩⟩)
                · intro date_db hdb hsucc l2 fa2 s2 hl2 hfa2 hs2
                  rw [Option.some_inj] at hdb hl2 hfa2 hs2
                  subst hdb
                  subst hl2
                  subst hfa2
                  subst hs2
                  refine ⟨?_, fun _ => by rw [heq]⟩
                  intro hexists
                  obtain ⟨r0, hr0, hkey0⟩ := hexists
                  exact absurd (List.any_eq_true.mpr ⟨r0, hr0, hkey0⟩) hex
    · have heq : record_milk_late st farmer_code date_str shift litres fat snf
          category = (false, st.milk_records) := by
        simp only [record_milk_late, hn]
        rw [if_neg hf]
      refine ⟨by rw [heq]; exact hinv, ?_⟩
      intro date_db hdb hsucc
      rw [heq] at hsucc
      simp at hsucc

/-- Witness for C8 on the empty state (insert path). -/
theorem record_milk_late_upsert_witness :
    atMostOnePerKey
      (record_milk_late ⟨[(1, "Ram")], [], []⟩ 1 "2024-05-01" "Morning"
        (some 10) (some 4) (some 8) "Cow").2 ∧
    (∀ date_db,
      normalize_date_input "2024-05-01" = some date_db →
      (record_milk_late ⟨[(1, "Ram")], [], []⟩ 1 "2024-05-01" "Morning"
          (some 10) (some 4) (some 8) "Cow").1 = true →
      ∀ l fa s : ℚ, (some 10 : Option ℚ) = some l →
        (some 4 : Option ℚ) = some fa → (some 8 : Option ℚ) = some s →
        ((∃ r ∈ ([] : List MilkRecord),
            milkKeyMatches r 1 date_db "Morning" "Cow" = true) →
          (record_milk_late ⟨[(1, "Ram")], [], []⟩ 1 "2024-05-01" "Morning"
              (some 10) (some 4) (some 8) "Cow").2.length =
            ([] : List MilkRecord).length ∧
          (∀ r ∈ (record_milk_late ⟨[(1, "Ram")], [], []⟩ 1 "2024-05-01"
              "Morning" (some 10) (some 4) (some 8) "Cow").2,
            milkKeyMatches r 1 date_db "Morning" "Cow" = true →
              r.litres = l ∧ r.fat = fa ∧ r.snf = s ∧
              r.rate = find_rate_for [] "Cow" fa s ∧
              r.amount = round2 (l * find_rate_for [] "Cow" fa s)) ∧
          (∀ r ∈ ([] : List MilkRecord),
            milkKeyMatches r 1 date_db "Morning" "Cow" = false →
              r ∈ (record_milk_late ⟨[(1, "Ram")], [], []⟩ 1 "2024-05-01"
                "Morning" (some 10) (some 4) (some 8) "Cow").2)) ∧
        ((¬ ∃ r ∈ ([] : List MilkRecord),
            milkKeyMatches r 1 date_db "Morning" "Cow" = true) →
          (record_milk_late ⟨[(1, "Ram")], [], []⟩ 1 "2024-05-01" "Morning"
              (some 10) (some 4) (some 8) "Cow").2 =
            ([] : List MilkRecord) ++
              [⟨1, date_db, "Morning", l, fa, s, find_rate_for [] "Cow" fa s,
                round2 (l * find_rate_for [] "Cow" fa s), "Cow"⟩])) :=
  record_milk_late_upsert ⟨[(1, "Ram")], [], []⟩ 1 "2024-05-01" "Morning"
    (some 10) (some 4) (some 8) "Cow" (List.Pairwise.nil)

/-- C4: whenever `record_milk_late` succeeds, the stored row for the entry's
key carries `rate = find_rate_for(category, fat, snf)` and
`amount = round2(litres * rate)`. -/
theorem record_milk_late_rate_amount (st : DairyState) (farmer_code : ℤ)
    (date_str shift : String) (litres fat snf : Option ℚ) (category : String)
    (l fa s : ℚ) (hl : litres = some l) (hfa : fat = some fa) (hs : snf = some s)
    (hsucc :
      (record_milk_late st farmer_code date_str shift litres fat snf category).1 =
        true) :
    ∃ date_db, normalize_date_input date_str = some date_db ∧
      (∃ r, r ∈ (record_milk_late st farmer_code date_str shift litres fat snf
          category).2 ∧
        milkKeyMatches r farmer_code date_db shift category = true) ∧
      ∀ r ∈ (record_milk_late st farmer_code date_str shift litres fat snf
          category).2,
        milkKeyMatches r farmer_code date_db shift category = true →
          r.rate = find_rate_for st.rate_table category fa s ∧
          r.amount = round2 (l * r.rate) := by
  subst hl
  subst hfa
  subst hs
  cases hn : normalize_date_input date_str with
  | none =>
    have heq : record_milk_late st farmer_code date_str shift (some l) (some fa)
        (some s) category = (false, st.milk_records) := by
      simp [record_milk_late, hn]
    rw [heq] at hsucc
    simp at hsucc
  | some date_db =>
    by_cases hf : st.farmers.any (fun f => f.1 = farmer_code) = true
    · by_cases hneg : fa < 0 ∨ s < 0 ∨ l < 0
      · have heq : record_milk_late st farmer_code date_str shift (some l)
            (some fa) (some s) category = (false, st.milk_records) := by
          simp only [record_milk_late, hn]
          rw [if_pos hf, if_pos hneg]
        rw [heq] at hsucc
        simp at hsucc
      · by_cases hex : st.milk_records.any
            (fun r => milkKeyMatches r farmer_code date_db shift category) = true
        · have heq : record_milk_late st farmer_code date_str shift (some l)
              (some fa) (some s) category =
              (true, st.milk_records.map (fun r =>
                if milkKeyMatches r farmer_code date_db shift category then
                  { r with
                      litres := l
                      fat := fa
                      snf := s
                      rate := find_rate_for st.rate_table category fa s
                      amount :=
                        round2 (l * find_rate_for st.rate_table category fa s) }
                else r)) := by
            simp only [record_milk_late, hn]
            rw [if_pos hf, if_neg hneg, if_pos hex]
          refine ⟨date_db, rfl, ?_, ?_⟩
          · obtain ⟨r0, hr0, hkey0⟩ := List.any_eq_true.mp hex
            rw [heq]
            refine ⟨_, List.mem_map_of_mem _ hr0, ?_⟩
            rw [if_pos hkey0, milkKeyMatches_update]
            exact hkey0
          · rw [heq]
            intro r hr hkey
            rw [List.mem_map] at hr
            obtain ⟨r0, hr0, rfl⟩ := hr
            by_cases hm : milkKeyMatches r0 farmer_code date_db shift category =
                true
            · rw [if_pos hm]
              exact ⟨rfl, rfl⟩
            · rw [if_neg hm] at hkey
              exact absurd hkey hm
        · have heq : record_milk_late st farmer_code date_str shift (some l)
              (some fa) (some s) category =
              (true, st.milk_records ++
                [⟨farmer_code, date_db, shift, l, fa, s,
                  find_rate_for st.rate_table category fa s,
                  round2 (l * find_rate_for st.rate_table category fa s),
                  category⟩]) := by
            simp only [record_milk_late, hn]
            rw [if_pos hf, if_neg hneg, if_neg hex]
          refine ⟨date_db, rfl, ?_, ?_⟩
          · rw [heq]
            refine ⟨⟨farmer_code, date_db, shift, l, fa, s,
              find_rate_for st.rate_table category fa s,
              round2 (l * find_rate_for st.rate_table category fa s),
              category⟩, by simp, ?_⟩
            exact decide_eq_true ⟨rfl, rfl, rfl, rfl⟩
          · rw [heq]
            intro r hr hkey
            rw [List.mem_append] at hr
            rcases hr with hr | hr
            · exact absurd (List.any_eq_true.mpr ⟨r, hr, hkey⟩) hex
            · simp only [List.mem_singleton] at hr
              subst hr
              exact ⟨rfl, rfl⟩
    · have heq : record_milk_late st farmer_code date_str shift (some l) (some fa)
          (some s) category = (false, st.milk_records) := by
        simp only [record_milk_late, hn]
        rw [if_neg hf]
      rw [heq] at hsucc
      simp at hsucc

/-- Witness for C4 on a successful one-farmer insert. -/
theorem record_milk_late_rate_amount_witness :
    ∃ date_db,
      normalize_date_input "2024-05-01" = some date_db ∧
      (∃ r, r ∈ (record_milk_late ⟨[(1, "Ram")], [], []⟩ 1 "2024-05-01" "Morning"
          (some 10) (some 4) (some 8) "Cow").2 ∧
        milkKeyMatches r 1 date_db "Morning" "Cow" = true) ∧
      ∀ r ∈ (record_milk_late ⟨[(1, "Ram")], [], []⟩ 1 "2024-05-01" "Morning"
          (some 10) (some 4) (some 8) "Cow").2,
        milkKeyMatches r 1 date_db "Morning" "Cow" = true →
          r.rate = find_rate_for [] "Cow" 4 8 ∧
          r.amount = round2 (10 * r.rate) :=
  record_milk_late_rate_amount ⟨[(1, "Ram")], [], []⟩ 1 "2024-05-01" "Morning"
    (some 10) (some 4) (some 8) "Cow" 10 4 8 rfl rfl rfl rfl

theorem digitChar_not_space (n : ℕ) (h : n < 10) :
    pyIsSpace (digitChar n) = false := by
  interval_cases n <;> decide

theorem digitChar_ne_slash (n : ℕ) (h : n < 10) : digitChar n ≠ '/' := by
  interval_cases n <;> decide

theorem digitChar_ne_dash (n : ℕ) (h : n < 10) : digitChar n ≠ '-' := by
  interval_cases n <;> decide

theorem digitChar_mod_not_space (n : ℕ) :
    pyIsSpace (digitChar (n % 10)) = false :=
  digitChar_not_space _ (Nat.mod_lt _ (by norm_num))

theorem digitChar_mod_ne_slash (n : ℕ) : digitChar (n % 10) ≠ '/' :=
  digitChar_ne_slash _ (Nat.mod_lt _ (by norm_num))

theorem digitChar_mod_ne_dash (n : ℕ) : digitChar (n % 10) ≠ '-' :=
  digitChar_ne_dash _ (Nat.mod_lt _ (by norm_num))

theorem pyStrip_no_ws (cs : List Char)
    (h : ∀ c ∈ cs, pyIsSpace c = false) : pyStrip cs = cs := by
  have h1 : cs.dropWhile pyIsSpace = cs := by
    cases cs with
    | nil => rfl
    | cons a l =>
      rw [List.dropWhile_cons]
      simp [h a (List.mem_cons_self a l)]
  have h2 : cs.reverse.dropWhile pyIsSpace = cs.reverse := by
    cases hrev : cs.reverse with
    | nil => rfl
    | cons a l =>
      have ha : a ∈ cs := by
        rw [← List.mem_reverse, hrev]
        exact List.mem_cons_self a l
      rw [List.dropWhile_cons]
      simp [h a ha]
  rw [pyStrip, h1, h2, List.reverse_reverse]

theorem asString_cons_ne_empty (c : Char) (cs : List Char) :
    (c :: cs).asString ≠ "" := by
  intro h
  have h2 : c :: cs = ([] : List Char) := congrArg String.data h
  cases h2

theorem readDay_pad2 (d : ℕ) (h1 : 1 ≤ d) (h2 : d ≤ 31) (rest : List Char) :
    readDay (pad2 d ++ rest) = some (d, rest) := by
  interval_cases d <;> rfl

theorem readMonth_pad2 (m : ℕ) (h1 : 1 ≤ m) (h2 : m ≤ 12) (rest : List Char) :
    readMonth (pad2 m ++ rest) = some (m, rest) := by
  interval_cases m <;> rfl

theorem ndDigitVal_digitChar (n : ℕ) (h : n < 10) :
    ndDigitVal (digitChar n) = some n := by
  interval_cases n <;> rfl

theorem ndDigitVal_mod (n : ℕ) :
    ndDigitVal (digitChar (n % 10)) = some (n % 10) :=
  ndDigitVal_digitChar _ (Nat.mod_lt _ (by norm_num))

theorem readYear_pad4 (y : ℕ) (hy : y < 10000) (rest : List Char) :
    readYear (pad4 y ++ rest) = some (y, rest) := by
  have hyv :
      ((y / 1000 % 10 * 10 + y / 100 % 10) * 10 + y / 10 % 10) * 10 + y % 10 =
        y := by omega
  simp [readYear, pad4, ndDigitVal_mod, hyv]

theorem readDay_rest (cs : List Char) (v : ℕ) (rest : List Char)
    (h : readDay cs = some (v, rest)) :
    rest = cs.drop 1 ∨ rest = cs.drop 2 := by
  cases cs with
  | nil => simp [readDay] at h
  | cons c1 cs1 =>
    cases cs1 with
    | nil =>
      simp only [readDay] at h
      split_ifs at h
      all_goals simp_all
    | cons c2 cs2 =>
      simp only [readDay] at h
      split_ifs at h
      all_goals simp_all

theorem parseDMY_fmtDMY (sep : Char) (y m d : ℕ) (hy : y < 10000)
    (hm1 : 1 ≤ m) (hm2 : m ≤ 12) (hd1 : 1 ≤ d) (hd2 : d ≤ 31)
    (hv : isValidDate y m d = true) :
    parseDMY sep (fmtDMYChars sep y m d) = some (y, m, d) := by
  have h1 := readDay_pad2 d hd1 hd2 (sep :: (pad2 m ++ sep :: pad4 y))
  have h2 := readMonth_pad2 m hm1 hm2 (sep :: pad4 y)
  have h3 : readYear (pad4 y) = some (y, []) := by
    have h4 := readYear_pad4 y hy []
    simpa using h4
  simp [parseDMY, fmtDMYChars, h1, h2, h3, expectChar, hv]

theorem parseYMD_fmtYMD (sep : Char) (y m d : ℕ) (hy : y < 10000)
    (hm1 : 1 ≤ m) (hm2 : m ≤ 12) (hd1 : 1 ≤ d) (hd2 : d ≤ 31)
    (hv : isValidDate y m d = true) :
    parseYMD sep (fmtYMDChars sep y m d) = some (y, m, d) := by
  have h1 := readYear_pad4 y hy (sep :: (pad2 m ++ sep :: pad2 d))
  have h2 := readMonth_pad2 m hm1 hm2 (sep :: pad2 d)
  have h3 : readDay (pad2 d) = some (d, []) := by
    have h4 := readDay_pad2 d hd1 hd2 []
    simpa using h4
  simp [parseYMD, fmtYMDChars, h1, h2, h3, expectChar, hv]

theorem parseDMY_fmtYMD_fail (sep sep2 : Char) (hs1 : sep = '/' ∨ sep = '-')
    (y m d : ℕ) : parseDMY sep (fmtYMDChars sep2 y m d) = none := by
  have hne1 : digitChar (y / 100 % 10) ≠ sep := by
    rcases hs1 with rfl | rfl
    · exact digitChar_mod_ne_slash _
    · exact digitChar_mod_ne_dash _
  have hne2 : digitChar (y / 10 % 10) ≠ sep := by
    rcases hs1 with rfl | rfl
    · exact digitChar_mod_ne_slash _
    · exact digitChar_mod_ne_dash _
  cases hrd : readDay (fmtYMDChars sep2 y m d) with
  | none => simp [parseDMY, hrd]
  | some p =>
    obtain ⟨v, rest⟩ := p
    rcases readDay_rest _ _ _ hrd with hr | hr <;>
      (subst hr
       simp only [parseDMY, hrd]
       simp [fmtYMDChars, pad4, pad2, expectChar, hne1, hne2])

theorem parseDMY_slash_fmtDMY_dash_fail (y m d : ℕ) :
    parseDMY '/' (fmtDMYChars '-' y m d) = none := by
  have hne1 : digitChar (d % 10) ≠ '/' := digitChar_mod_ne_slash _
  have hne2 : ('-' : Char) ≠ '/' := by decide
  cases hrd : readDay (fmtDMYChars '-' y m d) with
  | none => simp [parseDMY, hrd]
  | some p =>
    obtain ⟨v, rest⟩ := p
    rcases readDay_rest _ _ _ hrd with hr | hr <;>
      (subst hr
       simp only [parseDMY, hrd]
       simp [fmtDMYChars, pad4, pad2, expectChar, hne1, hne2])

theorem parseYMD_dash_fmtYMD_slash_fail (y m d : ℕ) :
    parseYMD '-' (fmtYMDChars '/' y m d) = none := by
  have hne : ('/' : Char) ≠ '-' := by decide
  simp [parseYMD, fmtYMDChars, pad2, pad4, readYear, ndDigitVal_mod,
    expectChar, hne]

theorem yearChars_pad4 (y : ℕ) (h : 1000 ≤ y) : yearChars y = pad4 y := by
  rw [yearChars, if_neg (by omega), if_neg (by omega), if_neg (by omega)]

theorem normalize_date_input_eq (d : String) (hne : d ≠ "") :
    normalize_date_input d =
      (match parseDMY '/' (pyStrip d.data) with
      | some (y, m, dd) => some (isoChars y m dd).asString
      | none =>
        match parseDMY '-' (pyStrip d.data) with
        | some (y, m, dd) => some (isoChars y m dd).asString
        | none =>
          match parseYMD '-' (pyStrip d.data) with
          | some (y, m, dd) => some (isoChars y m dd).asString
          | none =>
            match parseYMD '/' (pyStrip d.data) with
            | some (y, m, dd) => some (isoChars y m dd).asString
            | none =>
              match fromisoformat (pyStrip d.data) with
              | some (y, m, dd) => some (isoChars y m dd).asString
              | none => none) := by
  simp only [normalize_date_input, if_neg hne]

theorem fmtDMY_no_ws (sep : Char) (hsep : pyIsSpace sep = false) (y m d : ℕ) :
    ∀ c ∈ fmtDMYChars sep y m d, pyIsSpace c = false := by
  intro c hc
  simp [fmtDMYChars, pad2, pad4] at hc
  rcases hc with rfl | rfl | rfl | rfl | rfl | rfl | rfl | rfl | rfl | rfl <;>
    first
      | exact digitChar_mod_not_space _
      | exact hsep

theorem fmtYMD_no_ws (sep : Char) (hsep : pyIsSpace sep = false) (y m d : ℕ) :
    ∀ c ∈ fmtYMDChars sep y m d, pyIsSpace c = false := by
  intro c hc
  simp [fmtYMDChars, pad2, pad4] at hc
  rcases hc with rfl | rfl | rfl | rfl | rfl | rfl | rfl | rfl | rfl | rfl <;>
    first
      | exact digitChar_mod_not_space _
      | exact hsep

theorem normalize_on_chars (a : Char) (l : List Char)
    (hws : ∀ c ∈ a :: l, pyIsSpace c = false) :
    normalize_date_input (a :: l).asString =
      (match parseDMY '/' (a :: l) with
      | some (y, m, dd) => some (isoChars y m dd).asString
      | none =>
        match parseDMY '-' (a :: l) with
        | some (y, m, dd) => some (isoChars y m dd).asString
        | none =>
          match parseYMD '-' (a :: l) with
          | some (y, m, dd) => some (isoChars y m dd).asString
          | none =>
            match parseYMD '/' (a :: l) with
            | some (y, m, dd) => some (isoChars y m dd).asString
            | none =>
              match fromisoformat (a :: l) with
              | some (y, m, dd) => some (isoChars y m dd).asString
              | none => none) := by
  rw [normalize_date_input_eq _ (asString_cons_ne_empty a l)]
  have hdata : (a :: l).asString.data = a :: l := rfl
  rw [hdata, pyStrip_no_ws _ hws]

/-- C10 counterexample: the round-trip fails for years below 1000 because
`strftime('%Y')` does not zero-pad the year.  The valid date 5 June 999,
rendered as DD/MM/YYYY, normalizes to "999-06-05" and not to its four-digit
YYYY-MM-DD string "0999-06-05". -/
theorem normalize_date_input_not_padded :
    isValidDate 999 6 5 = true ∧
    (fmtDMYChars '/' 999 6 5).asString = "05/06/0999" ∧
    normalize_date_input "05/06/0999" = some "999-06-05" ∧
    normalize_date_input "05/06/0999" ≠ some "0999-06-05" :=
  ⟨by decide, by decide, by decide, by decide⟩

/-- C10 (amended): `normalize_date_input` maps every valid calendar date,
in each of the four accepted renderings, to the date's
`strftime('%Y-%m-%d')` string, which zero-pads month and day but not the
year — so the output is the claimed zero-padded YYYY-MM-DD string exactly
for years with four digits (`1000 ≤ y`).  The empty string is rejected, and
a string is rejected exactly when it is empty or its stripped form fails
the four `strptime` formats and the (full CPython) `fromisoformat`
fallback, which also accepts, e.g., time suffixes, compact and ISO-week
date forms and works on the UTF-8 bytes — while `strptime` pads days with
space or nothing, accepts Unicode digits where its regexes use `\d`, but
never accepts two-digit years. -/
theorem normalize_date_input_roundtrip :
    (∀ y m d : ℕ, isValidDate y m d = true →
      normalize_date_input (fmtDMYChars '/' y m d).asString =
          some (isoChars y m d).asString ∧
      normalize_date_input (fmtDMYChars '-' y m d).asString =
          some (isoChars y m d).asString ∧
      normalize_date_input (fmtYMDChars '-' y m d).asString =
          some (isoChars y m d).asString ∧
      normalize_date_input (fmtYMDChars '/' y m d).asString =
          some (isoChars y m d).asString) ∧
    (∀ y m d : ℕ, 1000 ≤ y →
      (isoChars y m d).asString =
        (pad4 y ++ '-' :: (pad2 m ++ '-' :: pad2 d)).asString) ∧
    normalize_date_input "" = none ∧
    (∀ s : String, normalize_date_input s = none ↔
      (s = "" ∨
        (parseDMY '/' (pyStrip s.data) = none ∧
          parseDMY '-' (pyStrip s.data) = none ∧
          parseYMD '-' (pyStrip s.data) = none ∧
          parseYMD '/' (pyStrip s.data) = none ∧
          fromisoformat (pyStrip s.data) = none))) ∧
    (normalize_date_input "5/6/99" = none ∧
      normalize_date_input "2024-06- 5" = some "2024-06-05" ∧
      normalize_date_input "2024-06-05T12" = some "2024-06-05" ∧
      normalize_date_input "20240605" = some "2024-06-05" ∧
      normalize_date_input "2024-W23-3" = some "2024-06-05" ∧
      normalize_date_input "2024-06-05T12:30:45.123456+05:30" =
        some "2024-06-05" ∧
      normalize_date_input "05/06/٢٠٢٤" = some "2024-06-05" ∧
      normalize_date_input "2024-06-05\xa012:30" = some "2024-06-05" ∧
      normalize_date_input "2024-06-05T00\xa0Z" = none ∧
      normalize_date_input "2024-06-05T12:30:45.123456xxZ" =
        some "2024-06-05" ∧
      normalize_date_input "2024-06-05T12\x00" = some "2024-06-05") := by
  refine ⟨?_, ?_, by rfl, ?_, by decide, by decide, by decide, by decide,
    by decide, by decide, by decide, by decide, by decide, by decide,
    by decide⟩
  · intro y m d hv
    have hv2 := hv
    simp only [isValidDate, Bool.and_eq_true, decide_eq_true_eq] at hv2
    have hdm : daysInMonth y m ≤ 31 := by
      unfold daysInMonth
      split_ifs <;> omega
    have hy : y < 10000 := by omega
    have hm1 : 1 ≤ m := by omega
    have hm2 : m ≤ 12 := by omega
    have hd1 : 1 ≤ d := by omega
    have hd2 : d ≤ 31 := by omega
    refine ⟨?_, ?_, ?_, ?_⟩
    · rw [show fmtDMYChars '/' y m d =
        digitChar (d / 10 % 10) :: digitChar (d % 10) :: '/' ::
          (pad2 m ++ '/' :: pad4 y) from rfl]
      rw [normalize_on_chars (digitChar (d / 10 % 10))
        (digitChar (d % 10) :: '/' :: (pad2 m ++ '/' :: pad4 y))
        (fmtDMY_no_ws '/' (by decide) y m d)]
      rw [show digitChar (d / 10 % 10) :: digitChar (d % 10) :: '/' ::
        (pad2 m ++ '/' :: pad4 y) = fmtDMYChars '/' y m d from rfl]
      rw [parseDMY_fmtDMY '/' y m d hy hm1 hm2 hd1 hd2 hv]
    · rw [show fmtDMYChars '-' y m d =
        digitChar (d / 10 % 10) :: digitChar (d % 10) :: '-' ::
          (pad2 m ++ '-' :: pad4 y) from rfl]
      rw [normalize_on_chars (digitChar (d / 10 % 10))
        (digitChar (d % 10) :: '-' :: (pad2 m ++ '-' :: pad4 y))
        (fmtDMY_no_ws '-' (by decide) y m d)]
      rw [show digitChar (d / 10 % 10) :: digitChar (d % 10) :: '-' ::
        (pad2 m ++ '-' :: pad4 y) = fmtDMYChars '-' y m d from rfl]
      rw [parseDMY_slash_fmtDMY_dash_fail y m d,
        parseDMY_fmtDMY '-' y m d hy hm1 hm2 hd1 hd2 hv]
    · rw [show fmtYMDChars '-' y m d =
        digitChar (y / 1000 % 10) :: digitChar (y / 100 % 10) ::
          digitChar (y / 10 % 10) :: digitChar (y % 10) :: '-' ::
          (pad2 m ++ '-' :: pad2 d) from rfl]
      rw [normalize_on_chars (digitChar (y / 1000 % 10))
        (digitChar (y / 100 % 10) :: digitChar (y / 10 % 10) ::
          digitChar (y % 10) :: '-' :: (pad2 m ++ '-' :: pad2 d))
        (fmtYMD_no_ws '-' (by decide) y m d)]
      rw [show digitChar (y / 1000 % 10) :: digitChar (y / 100 % 10) ::
        digitChar (y / 10 % 10) :: digitChar (y % 10) :: '-' ::
        (pad2 m ++ '-' :: pad2 d) = fmtYMDChars '-' y m d from rfl]
      rw [parseDMY_fmtYMD_fail '/' '-' (Or.inl rfl) y m d,
        parseDMY_fmtYMD_fail '-' '-' (Or.inr rfl) y m d,
        parseYMD_fmtYMD '-' y m d hy hm1 hm2 hd1 hd2 hv]
    · rw [show fmtYMDChars '/' y m d =
        digitChar (y / 1000 % 10) :: digitChar (y / 100 % 10) ::
          digitChar (y / 10 % 10) :: digitChar (y % 10) :: '/' ::
          (pad2 m ++ '/' :: pad2 d) from rfl]
      rw [normalize_on_chars (digitChar (y / 1000 % 10))
        (digitChar (y / 100 % 10) :: digitChar (y / 10 % 10) ::
          digitChar (y % 10) :: '/' :: (pad2 m ++ '/' :: pad2 d))
        (fmtYMD_no_ws '/' (by decide) y m d)]
      rw [show digitChar (y / 1000 % 10) :: digitChar (y / 100 % 10) ::
        digitChar (y / 10 % 10) :: digitChar (y % 10) :: '/' ::
        (pad2 m ++ '/' :: pad2 d) = fmtYMDChars '/' y m d from rfl]
      rw [parseDMY_fmtYMD_fail '/' '/' (Or.inl rfl) y m d,
        parseDMY_fmtYMD_fail '-' '/' (Or.inr rfl) y m d,
        parseYMD_dash_fmtYMD_slash_fail y m d,
        parseYMD_fmtYMD '/' y m d hy hm1 hm2 hd1 hd2 hv]
  · intro y m d h
    simp only [isoChars]
    rw [yearChars_pad4 y h]
  · intro s
    by_cases hne : s = ""
    · subst hne
      simp [normalize_date_input]
    · rw [normalize_date_input_eq s hne]
      cases h1 : parseDMY '/' (pyStrip s.data) with
      | some p =>
        obtain ⟨y1, m1, d1⟩ := p
        simp [hne]
      | none =>
        cases h2 : parseDMY '-' (pyStrip s.data) with
        | some p =>
          obtain ⟨y1, m1, d1⟩ := p
          simp [hne]
        | none =>
          cases h3 : parseYMD '-' (pyStrip s.data) with
          | some p =>
            obtain ⟨y1, m1, d1⟩ := p
            simp [hne]
          | none =>
            cases h4 : parseYMD '/' (pyStrip s.data) with
            | some p =>
              obtain ⟨y1, m1, d1⟩ := p
              simp [hne]
            | none =>
              cases h5 : fromisoformat (pyStrip s.data) with
              | some p =>
                obtain ⟨y1, m1, d1⟩ := p
                simp [hne]
              | none => simp [hne]

/-- Witness for C10's amended claim at 17/05/2023. -/
theorem normalize_date_input_roundtrip_witness :
    (normalize_date_input (fmtDMYChars '/' 2023 5 17).asString =
        some (isoChars 2023 5 17).asString ∧
      normalize_date_input (fmtDMYChars '-' 2023 5 17).asString =
        some (isoChars 2023 5 17).asString ∧
      normalize_date_input (fmtYMDChars '-' 2023 5 17).asString =
        some (isoChars 2023 5 17).asString ∧
      normalize_date_input (fmtYMDChars '/' 2023 5 17).asString =
        some (isoChars 2023 5 17).asString) ∧
    (isoChars 2023 5 17).asString =
      (pad4 2023 ++ '-' :: (pad2 5 ++ '-' :: pad2 17)).asString :=
  ⟨normalize_date_input_roundtrip.1 2023 5 17 (by decide),
    normalize_date_input_roundtrip.2.1 2023 5 17 (by norm_num)⟩
